import Mathlib

/-!
Shallow embedding of `src/file_detection.py` (karton-file-detection), the
Karton service that runs DiE, TrID and Magika on a sample and republishes
tags and attributes.

Modelling conventions:
* Python strings are lists of Unicode code points (`List Nat`); `cs` turns a
  Lean string literal into that representation.  Character classes (`\d`,
  `\s`, `\w`, `str.lower`, `str.title`, `str.strip`) are modelled on their
  ASCII behaviour, which is the relevant range for detector output.
* Python floats are modelled as exact rationals (`ℚ`).
* JSON values (`json.loads` results) are the inductive `JVal`; `json_loads`
  is a fuel-based recursive-descent parser for the JSON grammar.
* Code that can raise an exception is modelled in `Except Unit`; an
  uncaught Python exception is `Except.error ()`.
-/

namespace FileDetection

/-- Code points of a Lean string literal: the model of a Python `str`. -/
def cs (s : String) : List Nat := s.data.map Char.toNat

/-- ASCII lower-casing of one code point, the per-character model of
Python's `str.lower`. -/
def lowerChar (c : Nat) : Nat := if 65 ≤ c ∧ c ≤ 90 then c + 32 else c

/-- `name.lower()`. -/
def pyLower (s : List Nat) : List Nat := s.map lowerChar

/-- `.replace(": ", ":")`: left-to-right, non-overlapping replacement of the
two-character pattern colon-space by a colon. -/
def replaceColonSpace : List Nat → List Nat
  | [] => []
  | 58 :: 32 :: rest => 58 :: replaceColonSpace rest
  | c :: rest => c :: replaceColonSpace rest

/-- One step of `.replace(" ", "-")`. -/
def dashChar (c : Nat) : Nat := if c = 32 then 45 else c

/-- `.replace(" ", "-")`: a single-character pattern, so a plain map. -/
def pySpaceToDash (s : List Nat) : List Nat := s.map dashChar

/-- `FileDetection.normalize`:
`name.lower().replace(": ", ":").replace(" ", "-")`. -/
def normalize (s : List Nat) : List Nat :=
  pySpaceToDash (replaceColonSpace (pyLower s))

theorem lowerChar_idem (c : Nat) : lowerChar (lowerChar c) = lowerChar c := by
  unfold lowerChar
  split_ifs <;> omega

theorem replaceColonSpace_cons_ne {c : Nat} {rest : List Nat}
    (hne : ∀ r, c = 58 → rest = 32 :: r → False) :
    replaceColonSpace (c :: rest) = c :: replaceColonSpace rest := by
  rw [replaceColonSpace]
  exact hne

theorem mem_replaceColonSpace {c : Nat} {l : List Nat}
    (h : c ∈ replaceColonSpace l) : c ∈ l := by
  induction l using replaceColonSpace.induct with
  | case1 => simp [replaceColonSpace] at h
  | case2 rest ih =>
    rw [replaceColonSpace] at h
    rcases List.mem_cons.mp h with h | h
    · simp [h]
    · exact List.mem_cons_of_mem _ (List.mem_cons_of_mem _ (ih h))
  | case3 c' rest hne ih =>
    rw [replaceColonSpace_cons_ne hne] at h
    rcases List.mem_cons.mp h with h | h
    · simp [h]
    · exact List.mem_cons_of_mem _ (ih h)

theorem replaceColonSpace_eq_self {l : List Nat} (h : ∀ c ∈ l, c ≠ 32) :
    replaceColonSpace l = l := by
  induction l using replaceColonSpace.induct with
  | case1 => rfl
  | case2 rest ih =>
    exact absurd rfl (h 32 (by simp))
  | case3 c' rest hne ih =>
    rw [replaceColonSpace_cons_ne hne]
    rw [ih fun c hc => h c (List.mem_cons_of_mem _ hc)]

theorem pySpaceToDash_eq_self {l : List Nat} (h : ∀ c ∈ l, c ≠ 32) :
    pySpaceToDash l = l := by
  unfold pySpaceToDash
  conv_rhs => rw [← List.map_id l]
  refine List.map_congr_left fun c hc => ?_
  unfold dashChar
  simp [h c hc]

theorem pyLower_eq_self {l : List Nat} (h : ∀ c ∈ l, lowerChar c = c) :
    pyLower l = l := by
  unfold pyLower
  conv_rhs => rw [← List.map_id l]
  exact List.map_congr_left h

theorem normalize_no_space {c : Nat} {s : List Nat} (h : c ∈ normalize s) :
    c ≠ 32 := by
  unfold normalize pySpaceToDash at h
  rcases List.mem_map.mp h with ⟨a, _, rfl⟩
  unfold dashChar
  split_ifs <;> omega

theorem normalize_lower_fixed {c : Nat} {s : List Nat} (h : c ∈ normalize s) :
    lowerChar c = c := by
  unfold normalize pySpaceToDash at h
  rcases List.mem_map.mp h with ⟨a, ha, rfl⟩
  have ha' := mem_replaceColonSpace ha
  unfold pyLower at ha'
  rcases List.mem_map.mp ha' with ⟨b, _, rfl⟩
  unfold dashChar lowerChar
  split_ifs <;> omega

theorem normalize_idem (s : List Nat) : normalize (normalize s) = normalize s := by
  conv_lhs => rw [normalize]
  rw [pyLower_eq_self fun c hc => normalize_lower_fixed hc]
  rw [replaceColonSpace_eq_self fun c hc => normalize_no_space hc]
  rw [pySpaceToDash_eq_self fun c hc => normalize_no_space hc]

/-- A parsed JSON value, the model of what `json.loads` returns (Python
objects are association lists in source order, with duplicate keys kept as
written; lookups take the last binding, as `dict` construction does). -/
inductive JVal where
  | str (s : List Nat)
  | num (q : ℚ)
  | bool (b : Bool)
  | null
  | arr (xs : List JVal)
  | obj (fields : List (List Nat × JVal))

/-- `d[k]` for a JSON object: the last binding wins, matching `dict`
construction from a key-value stream. -/
def jlookup (fs : List (List Nat × JVal)) (k : List Nat) : Option JVal :=
  (fs.reverse.find? (fun p => p.1 == k)).map Prod.snd

/-- JSON whitespace accepted between tokens by `json.loads`. -/
def jsonWs (c : Nat) : Bool := c == 32 || c == 9 || c == 10 || c == 13

def isDigitB (c : Nat) : Bool := decide (48 ≤ c ∧ c ≤ 57)

def hexDigitVal (c : Nat) : Option Nat :=
  if 48 ≤ c ∧ c ≤ 57 then some (c - 48)
  else if 97 ≤ c ∧ c ≤ 102 then some (c - 87)
  else if 65 ≤ c ∧ c ≤ 70 then some (c - 55)
  else none

/-- The single-character JSON string escapes. -/
def escCharVal (e : Nat) : Option Nat :=
  if e = 34 then some 34
  else if e = 92 then some 92
  else if e = 47 then some 47
  else if e = 98 then some 8
  else if e = 102 then some 12
  else if e = 110 then some 10
  else if e = 114 then some 13
  else if e = 116 then some 9
  else none

/-- JSON string body after the opening quote: decoded content and the rest
of the input after the closing quote.  Raw control characters below 0x20
are rejected, as `json.loads` rejects them in strict mode.  A `\uXXXX`
escape is kept as its code unit (surrogate-pair merging is not modelled;
no claim touches it). -/
def parseStringLit : List Nat → Option (List Nat × List Nat)
  | [] => none
  | 34 :: rest => some ([], rest)
  | 92 :: rest =>
    match rest with
    | 117 :: h1 :: h2 :: h3 :: h4 :: r2 =>
      match hexDigitVal h1, hexDigitVal h2, hexDigitVal h3, hexDigitVal h4 with
      | some a, some b, some c, some d =>
        (parseStringLit r2).map (fun p => ((((a * 16 + b) * 16 + c) * 16 + d) :: p.1, p.2))
      | _, _, _, _ => none
    | e :: r2 =>
      match escCharVal e with
      | some c => (parseStringLit r2).map (fun p => (c :: p.1, p.2))
      | none => none
    | [] => none
  | c :: rest =>
    if c < 32 then none
    else (parseStringLit rest).map (fun p => (c :: p.1, p.2))

def digitsToNat (ds : List Nat) : Nat := ds.foldl (fun a c => a * 10 + (c - 48)) 0

def parseExpDigits (t : List Nat) (neg : Bool) : Option (Int × List Nat) :=
  let ds := t.takeWhile isDigitB
  if ds.isEmpty then none
  else some (if neg then -(digitsToNat ds : Int) else (digitsToNat ds : Int),
             t.dropWhile isDigitB)

def parseExpSign : List Nat → Option (Int × List Nat)
  | 43 :: t => parseExpDigits t false
  | 45 :: t => parseExpDigits t true
  | t => parseExpDigits t false

/-- The optional exponent part `[eE][+-]?\d+` of a JSON number. -/
def parseExp : List Nat → Option (Int × List Nat)
  | 101 :: t => parseExpSign t
  | 69 :: t => parseExpSign t
  | _ => none

/-- The exact rational `±(mant / 10^below) · 10^exp`, written as a single
`mkRat` so that concrete values reduce in the kernel. -/
def decimalToRat (neg : Bool) (mant : Nat) (below : Nat) (exp : Int) : ℚ :=
  let sm : Int := if neg then -(mant : Int) else (mant : Int)
  let k : Int := (below : Int) - exp
  if 0 ≤ k then mkRat sm (10 ^ k.toNat) else mkRat (sm * 10 ^ (-k).toNat) 1

/-- A JSON number: `-?(0|[1-9]\d*)(\.\d+)?([eE][+-]?\d+)?`, valued exactly
in ℚ (Python values it as int or IEEE float; no claim depends on float
rounding). -/
def parseNumber (s : List Nat) : Option (ℚ × List Nat) :=
  let signed : Bool × List Nat := match s with | 45 :: t => (true, t) | _ => (false, s)
  let ipRes : Option (List Nat × List Nat) :=
    match signed.2 with
    | 48 :: t => some ([48], t)
    | c :: t =>
      if 49 ≤ c ∧ c ≤ 57 then some (c :: t.takeWhile isDigitB, t.dropWhile isDigitB)
      else none
    | [] => none
  match ipRes with
  | none => none
  | some (ip, s2) =>
    let frac : List Nat × List Nat :=
      match s2 with
      | 46 :: t =>
        let ds := t.takeWhile isDigitB
        if ds.isEmpty then ([], s2) else (ds, t.dropWhile isDigitB)
      | _ => ([], s2)
    let expPart : Int × List Nat := (parseExp frac.2).getD (0, frac.2)
    let mant := digitsToNat ip * 10 ^ frac.1.length + digitsToNat frac.1
    some (decimalToRat signed.1 mant frac.1.length expPart.1, expPart.2)

mutual

/-- One JSON value (leading whitespace skipped) and the remaining input. -/
def parseVal : Nat → List Nat → Option (JVal × List Nat)
  | 0, _ => none
  | fuel + 1, s =>
    match s.dropWhile jsonWs with
    | 123 :: t => parseObj fuel t
    | 91 :: t => parseArr fuel t
    | 34 :: t => (parseStringLit t).map (fun p => (JVal.str p.1, p.2))
    | 116 :: 114 :: 117 :: 101 :: t => some (JVal.bool true, t)
    | 102 :: 97 :: 108 :: 115 :: 101 :: t => some (JVal.bool false, t)
    | 110 :: 117 :: 108 :: 108 :: t => some (JVal.null, t)
    | t => (parseNumber t).map (fun p => (JVal.num p.1, p.2))

/-- The body of a JSON object, entered after its `{`. -/
def parseObj : Nat → List Nat → Option (JVal × List Nat)
  | 0, _ => none
  | fuel + 1, s =>
    match s.dropWhile jsonWs with
    | 125 :: t => some (JVal.obj [], t)
    | _ => parseMembers fuel s []

/-- `"key": value` members separated by commas, up to the closing `}`. -/
def parseMembers : Nat → List Nat → List (List Nat × JVal) → Option (JVal × List Nat)
  | 0, _, _ => none
  | fuel + 1, s, acc =>
    match s.dropWhile jsonWs with
    | 34 :: t =>
      match parseStringLit t with
      | none => none
      | some (key, r1) =>
        match r1.dropWhile jsonWs with
        | 58 :: r2 =>
          match parseVal fuel r2 with
          | none => none
          | some (v, r3) =>
            match r3.dropWhile jsonWs with
            | 44 :: r4 => parseMembers fuel r4 (acc ++ [(key, v)])
            | 125 :: r4 => some (JVal.obj (acc ++ [(key, v)]), r4)
            | _ => none
        | _ => none
    | _ => none

/-- The body of a JSON array, entered after its `[`. -/
def parseArr : Nat → List Nat → Option (JVal × List Nat)
  | 0, _ => none
  | fuel + 1, s =>
    match s.dropWhile jsonWs with
    | 93 :: t => some (JVal.arr [], t)
    | _ => parseItems fuel s []

/-- Array items separated by commas, up to the closing `]`. -/
def parseItems : Nat → List Nat → List JVal → Option (JVal × List Nat)
  | 0, _, _ => none
  | fuel + 1, s, acc =>
    match parseVal fuel s with
    | none => none
    | some (v, r1) =>
      match r1.dropWhile jsonWs with
      | 44 :: r2 => parseItems fuel r2 (acc ++ [v])
      | 93 :: r2 => some (JVal.arr (acc ++ [v]), r2)
      | _ => none

end

/-- `json.loads`: parse one JSON document, demanding only whitespace after
it.  The fuel `4 * length + 4` dominates the call depth: every parser call
either consumes a character first or is one of at most three stacked calls
per consumed character. -/
def json_loads (s : List Nat) : Option JVal :=
  match parseVal (4 * s.length + 4) s with
  | some (v, rest) => if (rest.dropWhile jsonWs).isEmpty then some v else none
  | none => none

/-- Keys deduplicated keeping their first occurrence: the key sequence a
Python `dict` built from a binding stream iterates over. -/
def dedupFirst : List (List Nat) → List (List Nat)
  | [] => []
  | k :: rest => k :: dedupFirst (rest.filter (fun x => !(x == k)))
termination_by l => l.length
decreasing_by
  exact Nat.lt_succ_of_le (List.length_filter_le _ _)

/-- `for x in v`: what Python iteration over a JSON-derived value yields.
Lists yield their elements, dicts their keys, strings their characters
(as one-character strings); numbers, booleans and `None` raise `TypeError`. -/
def pyIter : JVal → Except Unit (List JVal)
  | .arr xs => .ok xs
  | .obj fs => .ok ((dedupFirst (fs.map Prod.fst)).map JVal.str)
  | .str s => .ok (s.map (fun c => JVal.str [c]))
  | _ => .error ()

/-- `len(v)`: defined for lists, strings and dicts; `TypeError` otherwise. -/
def pyLen : JVal → Except Unit Nat
  | .arr xs => .ok xs.length
  | .str s => .ok s.length
  | .obj fs => .ok (dedupFirst (fs.map Prod.fst)).length
  | _ => .error ()

/-- `v[k]` with a string key: a dict lookup (`KeyError` when absent);
`TypeError` on any other subscripted value. -/
def pyGetItem : JVal → List Nat → Except Unit JVal
  | .obj fs, k =>
    match jlookup fs k with
    | some v => .ok v
    | none => .error ()
  | _, _ => .error ()

/-- `v[0]`: the first element of a list, the first character of a string;
`KeyError`/`TypeError` otherwise. -/
def pyIndex0 : JVal → Except Unit JVal
  | .arr (x :: _) => .ok x
  | .str (c :: _) => .ok (.str [c])
  | _ => .error ()

/-- Python's substring test `needle in hay` on strings. -/
def containsSub (hay needle : List Nat) : Bool :=
  hay.tails.any (fun t => needle.isPrefixOf t)

/-- `k in v` for a string `k`: key membership in a dict, substring test in a
string, element membership in a list; `TypeError` otherwise. -/
def pyContains (v : JVal) (k : List Nat) : Except Unit Bool :=
  match v with
  | .obj fs => .ok (jlookup fs k).isSome
  | .str s => .ok (containsSub s k)
  | .arr xs => .ok (xs.any (fun x => match x with | .str t => t == k | _ => false))
  | _ => .error ()

def kValues : List Nat := cs "values"

def kDetects : List Nat := cs "detects"

def kType : List Nat := cs "type"

def kName : List Nat := cs "name"

/-- The loop body of `extract_json_output_from_die` for one entry of
`detects`: `some entry` when the entry is appended to the output, `none`
when the `continue` branches skip it, `error` when the body raises. -/
def dieKeep (detected : JVal) : Except Unit (Option JVal) :=
  match detected with
  | .obj fs => do
    let n1 ← pyLen ((jlookup fs kValues).getD (.arr []))
    if n1 = 0 then pure none
    else do
      let n2 ← pyLen ((jlookup fs kValues).getD (.arr []))
      if n2 = 1 then do
        let vs ← pyGetItem detected kValues
        let v0 ← pyIndex0 vs
        let t ← pyGetItem v0 kType
        let isUnknown : Bool := match t with | .str u => u == cs "Unknown" | _ => false
        if isUnknown then pure none else pure (some detected)
      else pure (some detected)
  | _ => .error ()

/-- The `for detected in parsed_data["detects"]` loop building `output`. -/
def detectsFilter : List JVal → Except Unit (List JVal)
  | [] => pure []
  | d :: rest => do
    let kd ← dieKeep d
    let tail ← detectsFilter rest
    match kd with
    | some x => pure (x :: tail)
    | none => pure tail

/-- `re.search(r"\{.*\}", die_data, re.DOTALL)`: with the greedy `.*` over
all characters, the match (when one exists) runs from the first `{` of the
input through its last `}`. -/
def braceSpan (s : List Nat) : Option (List Nat) :=
  match s.dropWhile (fun c => c != 123) with
  | 123 :: u =>
    let r := (u.reverse.dropWhile (fun c => c != 125)).reverse
    if r.isEmpty then none else some (123 :: r)
  | _ => none

/-- `FileDetection.extract_json_output_from_die` (the `sample_hash` argument
only feeds log lines and is dropped).  `Except.error ()` models an uncaught
exception, `.ok []` the logged soft failures. -/
def extract_json_output_from_die (die_data : List Nat) : Except Unit (List JVal) :=
  if die_data.isEmpty then pure []
  else
    match braceSpan die_data with
    | none => pure []
    | some span =>
      match json_loads span with
      | none => .error ()
      | some (.obj fs) =>
        match jlookup fs kDetects with
        | none => pure []
        | some dv => do
          let items ← pyIter dv
          detectsFilter items
      | some _ => .error ()

/-- The tag (if any) one `packer` value contributes in `get_tags_from_die`:
`.lower()` on a non-string `type`/`name` raises `AttributeError`, modelled
as `error`; a string or list `packer` also reaches an error when both
membership tests pass and the string subscript raises. -/
def tagOfPacker (packer : JVal) : Except Unit (Option (List Nat)) := do
  let ht ← pyContains packer kType
  let hn ← pyContains packer kName
  if ht && hn then do
    let tv ← pyGetItem packer kType
    let nv ← pyGetItem packer kName
    let ts ← match tv with | .str u => Except.ok u | _ => Except.error ()
    let ns ← match nv with | .str u => Except.ok u | _ => Except.error ()
    let pt := normalize ts
    let pn := normalize ns
    if pt == cs "unknown" || pn == cs "unknown" then pure none
    else if pt == cs "malware" && !(pn == cs "unknown") then pure (some pn)
    else pure (some (pt ++ 58 :: pn))
  else pure none

/-- The inner `for packer in detected["values"]` loop, accumulating into the
`tags` set. -/
def addTagsOfValues : List JVal → Finset (List Nat) → Except Unit (Finset (List Nat))
  | [], acc => pure acc
  | p :: rest, acc => do
    let t ← tagOfPacker p
    addTagsOfValues rest (match t with | some tag => insert tag acc | none => acc)

/-- The outer `for detected in die_data` loop of `get_tags_from_die`. -/
def getTagsGo : List JVal → Finset (List Nat) → Except Unit (Finset (List Nat))
  | [], acc => pure acc
  | d :: rest, acc => do
    let hv ← pyContains d kValues
    if hv then do
      let vsv ← pyGetItem d kValues
      let items ← pyIter vsv
      let acc2 ← addTagsOfValues items acc
      getTagsGo rest acc2
    else getTagsGo rest acc

/-- `FileDetection.get_tags_from_die`: the `tags` set built from the parsed
DiE findings.  The source materializes the set with `list(tags)` in
unspecified order; the model keeps the `Finset`. -/
def get_tags_from_die (die_data : List JVal) : Except Unit (Finset (List Nat)) :=
  getTagsGo die_data ∅

instance {ε α : Type} [DecidableEq ε] [DecidableEq α] : DecidableEq (Except ε α) := fun x y =>
  match x, y with
  | .ok a, .ok b => decidable_of_iff (a = b) (by simp)
  | .error a, .error b => decidable_of_iff (a = b) (by simp)
  | .ok _, .error _ => isFalse (by simp)
  | .error _, .ok _ => isFalse (by simp)

/-- Python `\s` (ASCII range). -/
def isSpaceB (c : Nat) : Bool :=
  c == 32 || c == 9 || c == 10 || c == 13 || c == 11 || c == 12

/-- Python `\w` (ASCII range). -/
def isWordB (c : Nat) : Bool :=
  decide (48 ≤ c ∧ c ≤ 57) || decide (65 ≤ c ∧ c ≤ 90) ||
  decide (97 ≤ c ∧ c ≤ 122) || c == 95

/-- Where the trailing `\s+(.+)` resumes when the input ends in whitespace:
the backtracking engine gives `\s+` the longest strict prefix of the
whitespace run `w` whose following character is not a newline (so that
`.+` still matches at least one character), i.e. the largest index
`1 ≤ k < w.length` with `w[k] ≠ '\n'`. -/
def backIdx (w : List Nat) : Option Nat :=
  ((List.range w.length).filter (fun k => decide (1 ≤ k) && (w.getD k 0 != 10))).max?

/-- One attempt of `re.compile(r"(\d+(?:\.\d+)?)%\s+\((\.\w+)\)\s+(.+)")`
anchored at the start of `s`: the three capture groups (percentage text,
extension with its dot, raw description) and the input remaining after the
match.  Every quantifier but the final `\s+(.+)` pair is forced (shrinking
`\d+`, `\.\d+`, `\s+` or `\w+` puts a character of the same class where a
delimiter is required), so only that last split needs `backIdx`.
The `(\d+(?:\.\d+)?)%` head lives in `pctParse`: the percentage group and
the input after the `%`. -/
def pctParse (s : List Nat) : Option (List Nat × List Nat) :=
  let ds := s.takeWhile isDigitB
  let s1 := s.dropWhile isDigitB
  if ds.isEmpty then none else
  match s1 with
  | 46 :: s2 =>
    let fs := s2.takeWhile isDigitB
    let s3 := s2.dropWhile isDigitB
    if fs.isEmpty then none
    else match s3 with
      | 37 :: s4 => some (ds ++ 46 :: fs, s4)
      | _ => none
  | 37 :: s4 => some (ds, s4)
  | _ => none

/-- The `\s+\((\.\w+)\)\s+(.+)` tail of the pattern after the `%`: the
extension group, the description group and the input after the match. -/
def tailMatch (s4 : List Nat) : Option (List Nat × List Nat × List Nat) :=
  let w1 := s4.takeWhile isSpaceB
  let s5 := s4.dropWhile isSpaceB
  if w1.isEmpty then none else
  match s5 with
  | 40 :: 46 :: s6 =>
    let ws := s6.takeWhile isWordB
    let s7 := s6.dropWhile isWordB
    if ws.isEmpty then none else
    match s7 with
    | 41 :: s8 =>
      let w2 := s8.takeWhile isSpaceB
      let s9 := s8.dropWhile isSpaceB
      if w2.isEmpty then none else
      match s9 with
      | [] =>
        match backIdx w2 with
        | none => none
        | some k =>
          let t := w2.drop k
          some (46 :: ws, t.takeWhile (fun c => c != 10),
                t.dropWhile (fun c => c != 10))
      | _ =>
        some (46 :: ws, s9.takeWhile (fun c => c != 10),
              s9.dropWhile (fun c => c != 10))
    | _ => none
  | _ => none

def matchAt (s : List Nat) : Option (List Nat × List Nat × List Nat × List Nat) :=
  match pctParse s with
  | none => none
  | some (pct, s4) =>
    match tailMatch s4 with
    | none => none
    | some (e, n, rest) => some (pct, e, n, rest)

/-- `pattern.findall(trid_data)`: scan left to right, at each failure slide
one character, after each (never-empty) match resume at its end.  The fuel
`length + 1` never runs out: a successful match consumes at least one
character (`matchAt_rest_length` below) and a failure consumes exactly one. -/
def findallAux (fuel : Nat) (s : List Nat) : List (List Nat × List Nat × List Nat) :=
  match fuel with
  | 0 => []
  | f + 1 =>
    match matchAt s with
    | some (p, e, n, rest) => (p, e, n) :: findallAux f rest
    | none =>
      match s with
      | [] => []
      | _ :: t => findallAux f t

def findallTrid (s : List Nat) : List (List Nat × List Nat × List Nat) :=
  findallAux (s.length + 1) s

theorem findallAux_succ (f : Nat) (s : List Nat) :
    findallAux (f + 1) s
      = match matchAt s with
        | some (p, e, n, rest) => (p, e, n) :: findallAux f rest
        | none => match s with | [] => [] | _ :: t => findallAux f t := rfl

/-- `float(text)` on the sublanguage the percentage group can produce:
digits with an optional dot-digits fractional part, valued exactly in ℚ.
Any other shape is `none` (Python would raise `ValueError`). -/
def pyFloat? (s : List Nat) : Option ℚ :=
  let ip := s.takeWhile isDigitB
  if ip.isEmpty then none
  else match s.dropWhile isDigitB with
    | [] => some (mkRat (digitsToNat ip) 1)
    | c :: fp =>
      if c = 46 then
        if fp.isEmpty || !(fp.all isDigitB) then none
        else some (mkRat (digitsToNat ip * 10 ^ fp.length + digitsToNat fp) (10 ^ fp.length))
      else none

/-- Python `str.strip()` (ASCII whitespace). -/
def stripPy (s : List Nat) : List Nat :=
  ((s.dropWhile isSpaceB).reverse.dropWhile isSpaceB).reverse

/-- One entry of the minimized TrID result:
`{"percentage": float(percent), "extension": ext, "name": name.strip()}`. -/
structure TridRecord where
  percentage : ℚ
  extension : List Nat
  name : List Nat
deriving DecidableEq

/-- `FileDetection.TRID_CUTOFF = 5`. -/
def TRID_CUTOFF : ℚ := 5

/-- The list comprehension of `extract_json_output_from_trid` before the
final reversal: keep a match when `float(percent) > TRID_CUTOFF`; a failing
`float` conversion would raise. -/
def buildTridRecs : List (List Nat × List Nat × List Nat) → Except Unit (List TridRecord)
  | [] => pure []
  | (p, e, n) :: rest => do
    let v ← match pyFloat? p with | some q => Except.ok q | none => Except.error ()
    let tail ← buildTridRecs rest
    if TRID_CUTOFF < v then pure (⟨v, e, stripPy n⟩ :: tail) else pure tail

/-- `FileDetection.extract_json_output_from_trid` (the `sample_hash`
argument only feeds log lines and is dropped). -/
def extract_json_output_from_trid (trid_data : List Nat) : Except Unit (List TridRecord) :=
  if trid_data.isEmpty then pure []
  else
    let ms := findallTrid trid_data
    if ms.isEmpty then pure []
    else (buildTridRecs ms).map List.reverse

def isAlphaB (c : Nat) : Bool :=
  decide (65 ≤ c ∧ c ≤ 90) || decide (97 ≤ c ∧ c ≤ 122)

def upperChar (c : Nat) : Nat := if 97 ≤ c ∧ c ≤ 122 then c - 32 else c

def pyTitleGo : List Nat → Bool → List Nat
  | [], _ => []
  | c :: rest, prevAlpha =>
    (if isAlphaB c then (if prevAlpha then lowerChar c else upperChar c) else c)
      :: pyTitleGo rest (isAlphaB c)

/-- Python `str.title()` (ASCII model): a letter is upper-cased when the
previous character is not a letter, lower-cased otherwise. -/
def pyTitle (s : List Nat) : List Nat := pyTitleGo s false

/-- Round to the nearest integer, ties to even: the rounding of Python's
built-in `round`. -/
def roundHalfEven (q : ℚ) : Int :=
  let f := q.floor
  let r : ℚ := q - (f : ℚ)
  if r < 1 / 2 then f
  else if (1 : ℚ) / 2 < r then f + 1
  else if f % 2 = 0 then f else f + 1

/-- `round(x, 2)` on the exact-rational model of the score. -/
def pyRound2 (q : ℚ) : ℚ := mkRat (roundHalfEven (q * 100)) 100

/-- The object the Magika library call returns: `output.label`,
`output.description`, `output.extensions`, `output.group` and the 0–1
confidence `score`. -/
structure MagikaResult where
  label : List Nat
  description : List Nat
  extensions : List (List Nat)
  group : List Nat
  score : ℚ

/-- One element of the `magika_json` list literal built in `process`. -/
structure MagikaRecord where
  label : List Nat
  description : List Nat
  extensions : List (List Nat)
  group : List Nat
  score : ℚ

/-- The dict `process` wraps in the one-element `magika_json` list:
label title-cased, score scaled to 0–100 and rounded to two decimals. -/
def mkMagikaRecord (m : MagikaResult) : MagikaRecord :=
  ⟨pyTitle m.label, m.description, m.extensions, m.group, pyRound2 (m.score * 100)⟩

/-- The outbound payload of the task `process` sends: the sample reference
(abstracted to an identifier), the tag set and the three attribute lists. -/
structure AnalysisRecord where
  sample : Nat
  tags : Finset (List Nat)
  die : List JVal
  trid : List TridRecord
  magika : List MagikaRecord

/-- The tail of `process` after the three attribute lists exist: the
`if not die_json and not trid_json and not magika_json: return` guard
(`.ok none`, nothing sent), else `get_tags_from_die` and `send_task`
(`.ok (some record)`). -/
def buildOutbound (sample : Nat) (die_json : List JVal) (trid_json : List TridRecord)
    (magika_json : List MagikaRecord) : Except Unit (Option AnalysisRecord) :=
  if die_json.isEmpty ∧ trid_json.isEmpty ∧ magika_json.isEmpty then .ok none
  else (get_tags_from_die die_json).map
    (fun tags => some ⟨sample, tags, die_json, trid_json, magika_json⟩)

/-- `FileDetection.process` for one sample, abstracted over what the three
external detectors returned: `die_raw` and `trid_raw` are the captured
stdout texts, `mag` the Magika library result.  `.error ()` models an
exception escaping `process` (no task is sent), `.ok none` the silent
drop, `.ok (some record)` one sent task. -/
def process (sample : Nat) (die_raw trid_raw : List Nat) (mag : MagikaResult) :
    Except Unit (Option AnalysisRecord) := do
  let die_json ← extract_json_output_from_die die_raw
  let trid_json ← extract_json_output_from_trid trid_raw
  let magika_json := [mkMagikaRecord mag]
  buildOutbound sample die_json trid_json magika_json

/-! ### Shared lemmas about `process` -/

theorem process_ok_shape {sample : Nat} {draw traw : List Nat} {mag : MagikaResult}
    {r : Option AnalysisRecord} (h : process sample draw traw mag = Except.ok r) :
    ∃ rec, r = some rec ∧ rec.magika = [mkMagikaRecord mag] := by
  unfold process at h
  cases h1 : extract_json_output_from_die draw with
  | error e =>
    rw [h1] at h
    exact absurd h (by simp [Bind.bind, Except.bind])
  | ok dj =>
    rw [h1] at h
    cases h2 : extract_json_output_from_trid traw with
    | error e =>
      rw [h2] at h
      exact absurd h (by simp [Bind.bind, Except.bind])
    | ok tj =>
      rw [h2] at h
      simp only [Bind.bind, Except.bind] at h
      unfold buildOutbound at h
      rw [if_neg (by simp)] at h
      cases h3 : get_tags_from_die dj with
      | error e => rw [h3] at h; simp [Except.map] at h
      | ok tags =>
        rw [h3] at h
        simp only [Except.map] at h
        injection h with h4
        exact ⟨_, h4.symm, rfl⟩

/-! ### The claims -/

/-- C7: `normalize` is idempotent: `normalize (normalize s) = normalize s`
for every string `s`. -/
theorem claim_C7_normalize_idempotent (s : List Nat) :
    normalize (normalize s) = normalize s :=
  normalize_idem s

/-- C8: `normalize` is the deterministic, total composition lower-case,
then collapse every `": "` to `":"`, then replace remaining spaces with
`"-"`; in particular `normalize "Some: Value Here" = "some:value-here"`. -/
theorem claim_C8_normalize_pipeline :
    (∀ s, normalize s = pySpaceToDash (replaceColonSpace (pyLower s))) ∧
    normalize (cs "Some: Value Here") = cs "some:value-here" :=
  ⟨fun _ => rfl, by decide⟩

/-- C1: when all three attribute lists are empty the guard in `process`
emits nothing (`.ok none`), an outbound record exists only when at least
one list is non-empty, and a record emitted by `process` never has all
three attribute lists empty — regardless of the sample identity. -/
theorem claim_C1_all_empty_never_emitted :
    (∀ (sample : Nat) (d : List JVal) (t : List TridRecord) (m : List MagikaRecord),
      d = [] → t = [] → m = [] → buildOutbound sample d t m = Except.ok none) ∧
    (∀ (sample : Nat) d t m r, buildOutbound sample d t m = Except.ok (some r) →
      ¬(d = [] ∧ t = [] ∧ m = [])) ∧
    (∀ (sample : Nat) draw traw mag r, process sample draw traw mag = Except.ok (some r) →
      ¬(r.die = [] ∧ r.trid = [] ∧ r.magika = [])) := by
  refine ⟨?_, ?_, ?_⟩
  · rintro sample d t m rfl rfl rfl
    rfl
  · rintro sample d t m r h ⟨rfl, rfl, rfl⟩
    exact absurd h (by simp [buildOutbound])
  · rintro sample draw traw mag r h ⟨hd, ht, hm⟩
    obtain ⟨rec, hrec, hmag⟩ := process_ok_shape h
    injection hrec with hrec
    rw [hrec, hmag] at hm
    exact List.cons_ne_nil _ _ hm

/-- C1 witness: the guard at concrete empty inputs. -/
theorem claim_C1_witness : buildOutbound 0 [] [] [] = Except.ok none :=
  claim_C1_all_empty_never_emitted.1 0 [] [] [] rfl rfl rfl

/-- C9: the magika attribute list built in `process` is a one-element list
literal, so the silent-drop guard never fires and every run of `process`
that returns without an exception emits an outbound record. -/
theorem claim_C9_singleton_magika_always_emits :
    (∀ mag : MagikaResult, ([mkMagikaRecord mag] : List MagikaRecord).length = 1) ∧
    (∀ (sample : Nat) draw traw mag r, process sample draw traw mag = Except.ok r →
      ∃ rec, r = some rec ∧ rec.magika.length = 1) := by
  refine ⟨fun _ => rfl, ?_⟩
  intro sample draw traw mag r h
  obtain ⟨rec, hrec, hmag⟩ := process_ok_shape h
  exact ⟨rec, hrec, by rw [hmag]; rfl⟩

/-- C9 witness: a concrete completed run emits a record with a singleton
magika list. -/
theorem claim_C9_witness :
    ∃ rec, (some (⟨0, ∅, [], [], [mkMagikaRecord ⟨[], [], [], [], 0⟩]⟩ : AnalysisRecord)
      = some rec ∧ rec.magika.length = 1) :=
  claim_C9_singleton_magika_always_emits.2 0 [] [] ⟨[], [], [], [], 0⟩ _ rfl

/-! ### The DiE brace span -/

theorem braceSpan_spec {s span : List Nat} (h : braceSpan s = some span) :
    ∃ a b, s = a ++ span ++ b ∧ (∀ c ∈ a, c ≠ 123) ∧ (∀ c ∈ b, c ≠ 125) ∧
      span.head? = some 123 ∧ span.getLast? = some 125 := by
  unfold braceSpan at h
  split at h
  next u heq =>
    dsimp only at h
    split at h
    next => exact absurd h (by simp)
    next hr =>
      injection h with h
      subst h
      have hne : u.reverse.dropWhile (fun c => c != 125) ≠ [] := by
        intro hnil
        rw [hnil] at hr
        simp at hr
      refine ⟨s.takeWhile (fun c => c != 123),
        (u.reverse.takeWhile (fun c => c != 125)).reverse, ?_, ?_, ?_, rfl, ?_⟩
      · have h1 := List.takeWhile_append_dropWhile (fun c => c != 123) s
        rw [heq] at h1
        have h2 := List.takeWhile_append_dropWhile (fun c => c != 125) u.reverse
        have h3 : u = (u.reverse.dropWhile (fun c => c != 125)).reverse
            ++ (u.reverse.takeWhile (fun c => c != 125)).reverse := by
          conv_lhs => rw [← List.reverse_reverse u, ← h2]
          rw [List.reverse_append]
        calc s = List.takeWhile (fun c => c != 123) s ++ 123 :: u := h1.symm
          _ = List.takeWhile (fun c => c != 123) s
              ++ 123 :: ((u.reverse.dropWhile (fun c => c != 125)).reverse
                ++ (u.reverse.takeWhile (fun c => c != 125)).reverse) := by rw [← h3]
          _ = List.takeWhile (fun c => c != 123) s
              ++ (123 :: (u.reverse.dropWhile (fun c => c != 125)).reverse)
              ++ (u.reverse.takeWhile (fun c => c != 125)).reverse := by simp
      · intro c hc
        have := List.mem_takeWhile_imp hc
        simpa using this
      · intro c hc
        rw [List.mem_reverse] at hc
        have := List.mem_takeWhile_imp hc
        simpa using this
      · have hhead : (u.reverse.dropWhile (fun c => c != 125)).head? = some 125 := by
          rw [List.head?_eq_head hne]
          have h0 := List.head_dropWhile_not (fun c => c != 125) u.reverse hne
          simp only [bne_eq_false_iff_eq] at h0
          rw [h0]
        have hrw : (123 :: (u.reverse.dropWhile (fun c => c != 125)).reverse)
            = (u.reverse.dropWhile (fun c => c != 125) ++ [123]).reverse := by
          rw [List.reverse_append]
          simp
        rw [hrw, List.getLast?_reverse]
        rcases e2 : u.reverse.dropWhile (fun c => c != 125) with _ | ⟨y, t⟩
        · exact absurd e2 hne
        · rw [e2] at hhead
          simpa using hhead
  next =>
    exact absurd h (by simp)

theorem extract_die_parse_error {s span : List Nat} (h1 : braceSpan s = some span)
    (h2 : json_loads span = none) :
    extract_json_output_from_die s = Except.error () := by
  have hs : s ≠ [] := by
    intro hnil
    rw [hnil] at h1
    exact absurd h1 (by simp [braceSpan, List.dropWhile])
  unfold extract_json_output_from_die
  rw [if_neg (by simpa using hs), h1]
  dsimp only
  rw [h2]

theorem process_die_error {sample : Nat} {draw traw : List Nat} {mag : MagikaResult}
    (h : extract_json_output_from_die draw = Except.error ()) :
    process sample draw traw mag = Except.error () := by
  unfold process
  rw [h]
  rfl

/-- C5: the JSON candidate `braceSpan` extracts runs from the first `{` of
the DiE output through its final `}` (nothing before it holds a `{`,
nothing after it holds a `}`); if that span fails to parse as JSON the
extraction raises, and the exception propagates out of `process`, so no
outbound record of any kind is produced for the sample. -/
theorem claim_C5_greedy_span_parse_fatal :
    (∀ s span, braceSpan s = some span →
      ∃ a b, s = a ++ span ++ b ∧ (∀ c ∈ a, c ≠ 123) ∧ (∀ c ∈ b, c ≠ 125) ∧
        span.head? = some 123 ∧ span.getLast? = some 125) ∧
    (∀ s span, braceSpan s = some span → json_loads span = none →
      extract_json_output_from_die s = Except.error ()) ∧
    (∀ (sample : Nat) (draw traw : List Nat) (mag : MagikaResult),
      extract_json_output_from_die draw = Except.error () →
      process sample draw traw mag = Except.error ()) :=
  ⟨fun _ _ h => braceSpan_spec h,
   fun _ _ h1 h2 => extract_die_parse_error h1 h2,
   fun _ _ _ _ h => process_die_error h⟩

/-- C5 witness: a brace-delimited but malformed body raises and the
exception escapes `process`. -/
theorem claim_C5_witness :
    extract_json_output_from_die (cs "x\x7boops\x7dy") = Except.error () ∧
    process 0 (cs "x\x7boops\x7dy") [] ⟨[], [], [], [], 0⟩ = Except.error () :=
  ⟨claim_C5_greedy_span_parse_fatal.2.1 (cs "x\x7boops\x7dy") (cs "\x7boops\x7d") rfl rfl,
   claim_C5_greedy_span_parse_fatal.2.2 0 (cs "x\x7boops\x7dy") [] ⟨[], [], [], [], 0⟩
     (claim_C5_greedy_span_parse_fatal.2.1 (cs "x\x7boops\x7dy") (cs "\x7boops\x7d") rfl rfl)⟩

/-- C6: `extract_json_output_from_die` returns an empty list without
raising when the input is empty, when no brace-delimited span exists
(e.g. on `"not json"`), and when the parsed object lacks a `detects`
field — soft failures that leave this detector's contribution empty. -/
theorem claim_C6_soft_failures_yield_empty :
    extract_json_output_from_die [] = Except.ok [] ∧
    (∀ s, s ≠ [] → braceSpan s = none → extract_json_output_from_die s = Except.ok []) ∧
    extract_json_output_from_die (cs "not json") = Except.ok [] ∧
    (∀ s span fs, braceSpan s = some span → json_loads span = some (JVal.obj fs) →
      jlookup fs kDetects = none → extract_json_output_from_die s = Except.ok []) := by
  refine ⟨rfl, ?_, rfl, ?_⟩
  · intro s hs hspan
    unfold extract_json_output_from_die
    rw [if_neg (by simpa using hs), hspan]
    rfl
  · intro s span fs h1 h2 h3
    have hs : s ≠ [] := by
      intro hnil
      rw [hnil] at h1
      exact absurd h1 (by simp [braceSpan, List.dropWhile])
    unfold extract_json_output_from_die
    rw [if_neg (by simpa using hs), h1]
    dsimp only
    rw [h2]
    dsimp only
    rw [h3]
    rfl

/-- C6 witness: the soft failures at concrete inputs. -/
theorem claim_C6_witness :
    extract_json_output_from_die (cs "not json") = Except.ok [] ∧
    extract_json_output_from_die (cs "\x7b\"a\": \"b\"\x7d") = Except.ok [] :=
  ⟨claim_C6_soft_failures_yield_empty.2.1 (cs "not json") (by decide) rfl,
   claim_C6_soft_failures_yield_empty.2.2.2 (cs "\x7b\"a\": \"b\"\x7d")
     (cs "\x7b\"a\": \"b\"\x7d") [(cs "a", JVal.str (cs "b"))] rfl rfl rfl⟩

/-! ### The TrID matcher consumes input -/

theorem length_dropWhile_le (p : Nat → Bool) (l : List Nat) :
    (l.dropWhile p).length ≤ l.length := by
  have hsp := congrArg List.length (List.takeWhile_append_dropWhile p l)
  simp only [List.length_append] at hsp
  omega

theorem length_takeWhile_le (p : Nat → Bool) (l : List Nat) :
    (l.takeWhile p).length ≤ l.length := by
  have hsp := congrArg List.length (List.takeWhile_append_dropWhile p l)
  simp only [List.length_append] at hsp
  omega

theorem pctParse_rest_length {s p s4 : List Nat} (h : pctParse s = some (p, s4)) :
    s4.length < s.length := by
  unfold pctParse at h
  dsimp only at h
  have hsp := congrArg List.length (List.takeWhile_append_dropWhile isDigitB s)
  simp only [List.length_append] at hsp
  split at h
  next => exact absurd h (by simp)
  next h1 =>
    have hd1 : 1 ≤ (s.takeWhile isDigitB).length := by
      rcases e : s.takeWhile isDigitB with _ | _
      · rw [e] at h1
        simp at h1
      · simp [e]
    split at h
    next s2 heq =>
      have hsp2 := congrArg List.length (List.takeWhile_append_dropWhile isDigitB s2)
      simp only [List.length_append] at hsp2
      have he := congrArg List.length heq
      simp only [List.length_cons] at he
      split at h
      next => exact absurd h (by simp)
      next h2 =>
        split at h
        next s4' heq2 =>
          obtain ⟨_, hs4⟩ := Prod.mk.injEq .. ▸ Option.some.inj h
          have he2 := congrArg List.length heq2
          simp only [List.length_cons] at he2
          rw [← hs4]
          omega
        next => exact absurd h (by simp)
    next s4' heq =>
      obtain ⟨_, hs4⟩ := Prod.mk.injEq .. ▸ Option.some.inj h
      have he := congrArg List.length heq
      simp only [List.length_cons] at he
      rw [← hs4]
      omega
    next => exact absurd h (by simp)

theorem tailMatch_rest_length {s4 e n rest : List Nat}
    (h : tailMatch s4 = some (e, n, rest)) : rest.length ≤ s4.length := by
  unfold tailMatch at h
  dsimp only at h
  have l5 := length_dropWhile_le isSpaceB s4
  split at h
  next => exact absurd h (by simp)
  next h1 =>
    split at h
    next s6 heq5 =>
      have e5 := congrArg List.length heq5
      simp only [List.length_cons] at e5
      have l7 := length_dropWhile_le isWordB s6
      split at h
      next => exact absurd h (by simp)
      next h2 =>
        split at h
        next s8 heq7 =>
          have e7 := congrArg List.length heq7
          simp only [List.length_cons] at e7
          have lw2 := length_takeWhile_le isSpaceB s8
          have l9 := length_dropWhile_le isSpaceB s8
          split at h
          next => exact absurd h (by simp)
          next h3 =>
            split at h
            next heq9 =>
              split at h
              next => exact absurd h (by simp)
              next k heqk =>
                have hr := congrArg (fun q => q.2.2) (Option.some.inj h)
                dsimp only at hr
                have hdk : (((s8.takeWhile isSpaceB).drop k).dropWhile
                    (fun c => c != 10)).length ≤ (s8.takeWhile isSpaceB).length := by
                  calc (((s8.takeWhile isSpaceB).drop k).dropWhile
                      (fun c => c != 10)).length
                      ≤ ((s8.takeWhile isSpaceB).drop k).length :=
                        length_dropWhile_le _ _
                    _ ≤ (s8.takeWhile isSpaceB).length := by
                        simp [List.length_drop]
                rw [← hr]
                omega
            next =>
              have hr := congrArg (fun q => q.2.2) (Option.some.inj h)
              dsimp only at hr
              have hdk : ((s8.dropWhile isSpaceB).dropWhile
                  (fun c => c != 10)).length ≤ (s8.dropWhile isSpaceB).length :=
                length_dropWhile_le _ _
              rw [← hr]
              omega
        next => exact absurd h (by simp)
    next => exact absurd h (by simp)

/-- A successful match consumes at least one character: the scan in
`findallAux` always advances, so the fuel `s.length + 1` in `findallTrid`
is never exhausted. -/
theorem matchAt_rest_length {s p e n rest : List Nat}
    (h : matchAt s = some (p, e, n, rest)) : rest.length < s.length := by
  unfold matchAt at h
  rcases hp : pctParse s with _ | ⟨pct, s4⟩
  · rw [hp] at h
    exact absurd h (by simp)
  · rw [hp] at h
    dsimp only at h
    rcases ht : tailMatch s4 with _ | ⟨e', n', rest'⟩
    · rw [ht] at h
      exact absurd h (by simp)
    · rw [ht] at h
      have hrr := congrArg (fun q => q.2.2.2) (Option.some.inj h)
      dsimp only at hrr
      rw [← hrr]
      exact lt_of_le_of_lt (tailMatch_rest_length ht) (pctParse_rest_length hp)

/-! ### The TrID matcher's percentage groups -/

theorem takeWhile_append_all {p : Nat → Bool} {l1 : List Nat} (l2 : List Nat)
    (h : ∀ c ∈ l1, p c = true) :
    (l1 ++ l2).takeWhile p = l1 ++ l2.takeWhile p ∧
      (l1 ++ l2).dropWhile p = l2.dropWhile p := by
  induction l1 with
  | nil => simp
  | cons a t ih =>
    have ha : p a = true := h a (by simp)
    have ih' := ih fun c hc => h c (List.mem_cons_of_mem _ hc)
    refine ⟨?_, ?_⟩
    · simp only [List.cons_append, List.takeWhile_cons, ha, if_true, ih'.1]
    · simp only [List.cons_append, List.dropWhile_cons, ha, if_true, ih'.2]

theorem pyFloat?_digits {ds : List Nat} (hne : ds ≠ [])
    (hall : ∀ c ∈ ds, isDigitB c = true) : (pyFloat? ds).isSome := by
  have ht : ds.takeWhile isDigitB = ds := List.takeWhile_eq_self_iff.mpr hall
  have hd : ds.dropWhile isDigitB = [] := List.dropWhile_eq_nil_iff.mpr hall
  unfold pyFloat?
  rw [ht, hd, if_neg (by simpa using hne)]
  rfl

theorem pyFloat?_digits_frac {ds fs : List Nat} (hds : ds ≠ [])
    (hallds : ∀ c ∈ ds, isDigitB c = true) (hfs : fs ≠ [])
    (hallfs : ∀ c ∈ fs, isDigitB c = true) :
    (pyFloat? (ds ++ 46 :: fs)).isSome := by
  obtain ⟨ht, hd⟩ := takeWhile_append_all (46 :: fs) hallds
  have h46 : isDigitB 46 = false := rfl
  simp only [List.takeWhile_cons, List.dropWhile_cons, h46, Bool.false_eq_true,
    if_false, List.append_nil] at ht hd
  have hcond : (fs.isEmpty || !fs.all isDigitB) = false := by
    simp only [Bool.or_eq_false_iff, Bool.not_eq_false', List.all_eq_true]
    exact ⟨by simpa [List.isEmpty_iff] using hfs, hallfs⟩
  unfold pyFloat?
  rw [ht, hd, if_neg (by simpa using hds)]
  dsimp only
  rw [if_pos rfl, hcond]
  rfl

theorem pctParse_shape {s p s4 : List Nat} (h : pctParse s = some (p, s4)) :
    (pyFloat? p).isSome := by
  unfold pctParse at h
  dsimp only at h
  have hmemd : ∀ c ∈ s.takeWhile isDigitB, isDigitB c = true :=
    fun c hc => List.mem_takeWhile_imp hc
  split at h
  next => exact absurd h (by simp)
  next h1 =>
    split at h
    next s2 heq =>
      have hmemf : ∀ c ∈ s2.takeWhile isDigitB, isDigitB c = true :=
        fun c hc => List.mem_takeWhile_imp hc
      split at h
      next => exact absurd h (by simp)
      next h2 =>
        split at h
        next s4' heq2 =>
          obtain ⟨hp, _⟩ := Prod.mk.injEq .. ▸ Option.some.inj h
          rw [← hp]
          exact pyFloat?_digits_frac (by simpa using h1) hmemd (by simpa using h2) hmemf
        next => exact absurd h (by simp)
    next s4' heq =>
      obtain ⟨hp, _⟩ := Prod.mk.injEq .. ▸ Option.some.inj h
      rw [← hp]
      exact pyFloat?_digits (by simpa using h1) hmemd
    next => exact absurd h (by simp)

theorem matchAt_pct {s p e n rest : List Nat}
    (h : matchAt s = some (p, e, n, rest)) : (pyFloat? p).isSome := by
  unfold matchAt at h
  rcases hp : pctParse s with _ | ⟨pct, s4⟩
  · rw [hp] at h
    exact absurd h (by simp)
  · rw [hp] at h
    dsimp only at h
    rcases ht : tailMatch s4 with _ | ⟨e', n', rest'⟩
    · rw [ht] at h
      exact absurd h (by simp)
    · rw [ht] at h
      have hpp : pct = p := congrArg (fun q => q.1) (Option.some.inj h)
      rw [← hpp]
      exact pctParse_shape hp

theorem findallAux_pct : ∀ (fuel : Nat) (s : List Nat)
    (g : List Nat × List Nat × List Nat),
    g ∈ findallAux fuel s → (pyFloat? g.1).isSome := by
  intro fuel
  induction fuel with
  | zero =>
    intro s g hg
    simp [findallAux] at hg
  | succ f ih =>
    intro s g hg
    rw [findallAux_succ] at hg
    rcases hm : matchAt s with _ | ⟨p, e, n, rest⟩
    · rw [hm] at hg
      rcases s with _ | ⟨c, t⟩
      · simp at hg
      · exact ih t g hg
    · rw [hm] at hg
      rcases List.mem_cons.mp hg with h | h
      · rw [h]
        exact matchAt_pct hm
      · exact ih rest g h

/-- What one match contributes to the comprehension in
`extract_json_output_from_trid`: its record when `float(percent)` clears
the cutoff, nothing otherwise. -/
def tridKeep (g : List Nat × List Nat × List Nat) : Option TridRecord :=
  match pyFloat? g.1 with
  | some q => if TRID_CUTOFF < q then some ⟨q, g.2.1, stripPy g.2.2⟩ else none
  | none => none

theorem buildTridRecs_ok (ms : List (List Nat × List Nat × List Nat))
    (h : ∀ g ∈ ms, (pyFloat? g.1).isSome) :
    buildTridRecs ms = Except.ok (ms.filterMap tridKeep) := by
  induction ms with
  | nil => rfl
  | cons g rest ih =>
    obtain ⟨p, e, n⟩ := g
    have hp := h (p, e, n) (by simp)
    rcases hq : pyFloat? p with _ | q
    · rw [hq] at hp
      simp at hp
    · have ih' := ih fun g hg => h g (List.mem_cons_of_mem _ hg)
      rw [buildTridRecs]
      dsimp only
      rw [hq]
      simp only [Bind.bind, Except.bind, ih']
      by_cases hlt : TRID_CUTOFF < q
      · simp [List.filterMap_cons, tridKeep, hq, hlt, pure, Except.pure]
      · simp [List.filterMap_cons, tridKeep, hq, hlt, pure, Except.pure]

theorem extract_trid_eq (s : List Nat) :
    extract_json_output_from_trid s
      = Except.ok (((findallTrid s).filterMap tridKeep).reverse) := by
  unfold extract_json_output_from_trid
  by_cases hs : s.isEmpty
  · rw [if_pos hs]
    have hnil : s = [] := by simpa using hs
    subst hnil
    rfl
  · rw [if_neg hs]
    by_cases hm : (findallTrid s).isEmpty
    · rw [if_pos hm]
      have hnil : findallTrid s = [] := by simpa using hm
      rw [hnil]
      rfl
    · rw [if_neg hm,
        buildTridRecs_ok (findallTrid s) (fun g hg => findallAux_pct (s.length + 1) s g hg)]
      rfl

/-- C10: `extract_json_output_from_trid` is total — every input yields an
`ok` list, empty input and pattern-free input yield `[]`, and every
percentage group the pattern captures is digits with an optional
fractional part, so the `float` conversion always succeeds. -/
theorem claim_C10_trid_total :
    (∀ s, ∃ l, extract_json_output_from_trid s = Except.ok l) ∧
    extract_json_output_from_trid [] = Except.ok [] ∧
    (∀ s, findallTrid s = [] → extract_json_output_from_trid s = Except.ok []) ∧
    (∀ s g, g ∈ findallTrid s → (pyFloat? g.1).isSome) := by
  refine ⟨fun s => ⟨_, extract_trid_eq s⟩, rfl, ?_, fun s g hg => findallAux_pct _ s g hg⟩
  intro s hf
  rw [extract_trid_eq s, hf]
  rfl

/-- C10 witness: a pattern-free input yields `[]`, and the percentage
group of a concrete match converts. -/
theorem claim_C10_witness :
    extract_json_output_from_trid (cs "hello") = Except.ok [] ∧
    (pyFloat? (cs "80.0", cs ".exe", cs "Win32 Executable").1).isSome :=
  ⟨claim_C10_trid_total.2.2.1 (cs "hello") (by decide),
   claim_C10_trid_total.2.2.2 (cs "80.0% (.exe) Win32 Executable")
     (cs "80.0", cs ".exe", cs "Win32 Executable") (by decide)⟩

/-- C4: `extract_json_output_from_trid` keeps exactly the matches whose
percentage exceeds the cutoff 5 and reverses the kept list; on the
two-line example only the 80.0% line survives, and two qualifying matches
in source order A-then-B come back as [B, A]. -/
theorem claim_C4_cutoff_and_reversal :
    (∀ s, extract_json_output_from_trid s
        = Except.ok (((findallTrid s).filterMap tridKeep).reverse)) ∧
    extract_json_output_from_trid
        (cs "80.0% (.exe) Win32 Executable\n3.0% (.bin) Generic binary\n")
      = Except.ok [⟨80, cs ".exe", cs "Win32 Executable"⟩] ∧
    (∀ s a b qa qb, findallTrid s = [a, b] →
      pyFloat? a.1 = some qa → TRID_CUTOFF < qa →
      pyFloat? b.1 = some qb → TRID_CUTOFF < qb →
      extract_json_output_from_trid s
        = Except.ok [⟨qb, b.2.1, stripPy b.2.2⟩, ⟨qa, a.2.1, stripPy a.2.2⟩]) := by
  refine ⟨extract_trid_eq, by decide, ?_⟩
  intro s a b qa qb hf ha hqa hb hqb
  rw [extract_trid_eq s, hf]
  simp [List.filterMap_cons, tridKeep, ha, hb, hqa, hqb]

/-- C4 witness: two qualifying lines in source order A-then-B come back
reversed. -/
theorem claim_C4_witness :
    extract_json_output_from_trid (cs "80.0% (.exe) A\n7.5% (.bin) B\n")
      = Except.ok [⟨mkRat 75 10, cs ".bin", stripPy (cs "B")⟩,
          ⟨mkRat 800 10, cs ".exe", stripPy (cs "A")⟩] :=
  claim_C4_cutoff_and_reversal.2.2 (cs "80.0% (.exe) A\n7.5% (.bin) B\n")
    (cs "80.0", cs ".exe", cs "A") (cs "7.5", cs ".bin", cs "B")
    (mkRat 800 10) (mkRat 75 10) (by decide) (by decide) (by decide) (by decide) (by decide)

/-! ### The detects filter (C3) -/

/-- The value list of a finding: its `values` field when present (an array
in every well-shaped finding), otherwise the empty default. -/
def valuesOf (d : JVal) : List JVal :=
  match d with
  | .obj fs =>
    match jlookup fs kValues with
    | some (.arr vs) => vs
    | _ => []
  | _ => []

/-- Whether a value record's `type` field is the literal string
`"Unknown"`. -/
def isUnknownType (v : JVal) : Bool :=
  match v with
  | .obj gs =>
    match jlookup gs kType with
    | some (.str u) => u == cs "Unknown"
    | _ => false
  | _ => false

/-- The filter the spec describes for `detects` entries: drop an entry with
zero values, drop an entry with exactly one value whose `type` is
`"Unknown"`, retain everything else. -/
def specKeep (d : JVal) : Bool :=
  match valuesOf d with
  | [] => false
  | [v] => !isUnknownType v
  | _ => true

/-- The shape the DiE output contract gives a finding: a JSON object whose
`values` field, when present, is an array, and whose single value (when
the array is a singleton) is an object carrying a `type` field. -/
def WellShapedFinding (d : JVal) : Prop :=
  ∃ fs, d = JVal.obj fs ∧
    ∀ v, jlookup fs kValues = some v →
      ∃ vs, v = JVal.arr vs ∧
        ∀ x, vs = [x] → ∃ gs, x = JVal.obj gs ∧ (jlookup gs kType).isSome

theorem dieKeep_wellShaped {d : JVal} (hw : WellShapedFinding d) :
    dieKeep d = Except.ok (if specKeep d then some d else none) := by
  obtain ⟨fs, rfl, hv⟩ := hw
  cases hvv : jlookup fs kValues with
  | none =>
    simp [dieKeep, hvv, pyLen, specKeep, valuesOf, Bind.bind, Except.bind, pure, Except.pure]
  | some v =>
    obtain ⟨vs, rfl, hx⟩ := hv v hvv
    match vs, hx with
    | [], _ =>
      simp [dieKeep, hvv, pyLen, specKeep, valuesOf, Bind.bind, Except.bind, pure, Except.pure]
    | [x], hx =>
      obtain ⟨gs, rfl, htype⟩ := hx x rfl
      obtain ⟨tv, htv⟩ := Option.isSome_iff_exists.mp htype
      simp only [dieKeep, hvv, pyLen, Option.getD, Bind.bind, Except.bind,
        List.length_singleton, one_ne_zero, if_false, if_true, pyGetItem,
        pyIndex0, htv, specKeep, valuesOf, isUnknownType]
      cases tv with
      | str u =>
        by_cases hu : (u == cs "Unknown") = true
        · simp [hu, pure, Except.pure]
        · simp [hu, pure, Except.pure]
      | num q => simp [pure, Except.pure]
      | bool b => simp [pure, Except.pure]
      | null => simp [pure, Except.pure]
      | arr xs => simp [pure, Except.pure]
      | obj gs2 => simp [pure, Except.pure]
    | x :: y :: t, _ =>
      simp [dieKeep, hvv, pyLen, specKeep, valuesOf, Bind.bind, Except.bind, pure, Except.pure]

theorem detectsFilter_wellShaped {ds : List JVal}
    (h : ∀ d ∈ ds, WellShapedFinding d) :
    detectsFilter ds = Except.ok (ds.filter specKeep) := by
  induction ds with
  | nil => rfl
  | cons d rest ih =>
    have hd := dieKeep_wellShaped (h d (by simp))
    have ih' := ih fun d hd => h d (List.mem_cons_of_mem _ hd)
    rw [detectsFilter]
    simp only [Bind.bind, Except.bind, hd, ih', List.filter_cons]
    by_cases hk : specKeep d
    · simp [hk, pure, Except.pure]
    · simp [hk, pure, Except.pure]

/-- C3: after the parse, the `detects` loop drops exactly the entries with
zero values and the entries with exactly one value typed `"Unknown"`, and
keeps every other entry unchanged; on the single-Unknown-value document it
returns `[]`, and on the single-Packer-value document it returns that one
finding unfiltered. -/
theorem claim_C3_detects_filter :
    (∀ ds : List JVal, (∀ d ∈ ds, WellShapedFinding d) →
      detectsFilter ds = Except.ok (ds.filter specKeep)) ∧
    extract_json_output_from_die
        (cs "\x7b\"detects\":[\x7b\"values\":[\x7b\"type\":\"Unknown\",\"name\":\"x\"\x7d]\x7d]\x7d")
      = Except.ok [] ∧
    extract_json_output_from_die
        (cs "\x7b\"detects\":[\x7b\"values\":[\x7b\"type\":\"Packer\",\"name\":\"UPX\"\x7d]\x7d]\x7d")
      = Except.ok [JVal.obj [(cs "values", JVal.arr
          [JVal.obj [(cs "type", JVal.str (cs "Packer")),
                     (cs "name", JVal.str (cs "UPX"))]])]] :=
  ⟨fun _ h => detectsFilter_wellShaped h, rfl, rfl⟩

/-- C3 witness: the filter at a concrete well-shaped findings list. -/
theorem claim_C3_witness :
    detectsFilter [JVal.obj [(cs "values", JVal.arr
        [JVal.obj [(cs "type", JVal.str (cs "Packer")),
                   (cs "name", JVal.str (cs "UPX"))]])]]
      = Except.ok [JVal.obj [(cs "values", JVal.arr
          [JVal.obj [(cs "type", JVal.str (cs "Packer")),
                     (cs "name", JVal.str (cs "UPX"))]])]] := by
  have h := claim_C3_detects_filter.1
    [JVal.obj [(cs "values", JVal.arr
      [JVal.obj [(cs "type", JVal.str (cs "Packer")),
                 (cs "name", JVal.str (cs "UPX"))]])]] ?_
  · rw [h]
    rfl
  · intro d hd
    have hdX := List.mem_singleton.mp hd
    subst hdX
    refine ⟨_, rfl, fun v hv => ?_⟩
    have hv' : some (JVal.arr [JVal.obj [(cs "type", JVal.str (cs "Packer")),
        (cs "name", JVal.str (cs "UPX"))]]) = some v := hv
    refine ⟨_, (Option.some.inj hv').symm, fun x hx => ?_⟩
    have hx1 : JVal.obj [(cs "type", JVal.str (cs "Packer")),
        (cs "name", JVal.str (cs "UPX"))] = x := (List.cons.inj hx).1
    exact ⟨_, hx1.symm, rfl⟩

/-! ### Tag derivation (C2) -/

/-- The spec's tag rule for one `{type, name}` pair: skip when either
normalizes to `"unknown"`, the bare name when the type normalizes to
`"malware"`, `"type:name"` otherwise. -/
def tagOfTypeName (t n : List Nat) : Option (List Nat) :=
  if normalize t = cs "unknown" ∨ normalize n = cs "unknown" then none
  else if normalize t = cs "malware" then some (normalize n)
  else some (normalize t ++ 58 :: normalize n)

/-- The tag a value record contributes: only objects carrying both a
string `type` and a string `name` contribute. -/
def specTagsOfValue (p : JVal) : Option (List Nat) :=
  match p with
  | .obj gs =>
    match jlookup gs kType, jlookup gs kName with
    | some (.str t), some (.str n) => tagOfTypeName t n
    | _, _ => none
  | _ => none

/-- The tags one finding contributes: one per value of its `values` array. -/
def specTagsOfFinding (d : JVal) : List (List Nat) :=
  match d with
  | .obj fs =>
    match jlookup fs kValues with
    | some (.arr vs) => vs.filterMap specTagsOfValue
    | _ => []
  | _ => []

def specTagsList : List JVal → List (List Nat)
  | [] => []
  | d :: rest => specTagsOfFinding d ++ specTagsList rest

/-- The deduplicated tag set of a findings list, per the spec's rules. -/
def specTags (ds : List JVal) : Finset (List Nat) := (specTagsList ds).toFinset

/-- A value record as the DiE contract shapes it: an object whose `type`
and `name` fields, when present, are strings. -/
def WellShapedValue (x : JVal) : Prop :=
  ∃ gs, x = JVal.obj gs ∧
    (∀ tv, jlookup gs kType = some tv → ∃ t, tv = JVal.str t) ∧
    (∀ nv, jlookup gs kName = some nv → ∃ n, nv = JVal.str n)

/-- A finding as `get_tags_from_die`'s input contract shapes it: an object
whose `values` field, when present, is an array of well-shaped values. -/
def WellShapedTagInput (d : JVal) : Prop :=
  ∃ fs, d = JVal.obj fs ∧
    ∀ v, jlookup fs kValues = some v →
      ∃ vs, v = JVal.arr vs ∧ ∀ x ∈ vs, WellShapedValue x

theorem tagOfPacker_wellShaped {x : JVal} (hw : WellShapedValue x) :
    tagOfPacker x = Except.ok (specTagsOfValue x) := by
  obtain ⟨gs, rfl, hT, hN⟩ := hw
  cases htv : jlookup gs kType with
  | none =>
    cases hnv : jlookup gs kName with
    | none =>
      simp [tagOfPacker, pyContains, htv, hnv, specTagsOfValue,
        Bind.bind, Except.bind, pure, Except.pure]
    | some nv =>
      simp [tagOfPacker, pyContains, htv, hnv, specTagsOfValue,
        Bind.bind, Except.bind, pure, Except.pure]
  | some tv =>
    obtain ⟨t, rfl⟩ := hT tv htv
    cases hnv : jlookup gs kName with
    | none =>
      simp [tagOfPacker, pyContains, htv, hnv, specTagsOfValue,
        Bind.bind, Except.bind, pure, Except.pure]
    | some nv =>
      obtain ⟨n, rfl⟩ := hN nv hnv
      simp only [tagOfPacker, pyContains, htv, hnv, specTagsOfValue,
        Option.isSome_some, Bool.and_self, if_true, pyGetItem,
        Bind.bind, Except.bind, pure, Except.pure]
      by_cases h1 : normalize t = cs "unknown"
      · simp [tagOfTypeName, h1]
      · by_cases h2 : normalize n = cs "unknown"
        · simp [tagOfTypeName, h1, h2]
        · by_cases h3 : normalize t = cs "malware"
          · have hmu : ¬(cs "malware" = cs "unknown") := by decide
            simp [tagOfTypeName, h1, h2, h3, hmu]
          · simp [tagOfTypeName, h1, h2, h3]

theorem addTagsOfValues_wellShaped {items : List JVal}
    (h : ∀ x ∈ items, WellShapedValue x) :
    ∀ acc, addTagsOfValues items acc
      = Except.ok (acc ∪ (items.filterMap specTagsOfValue).toFinset) := by
  induction items with
  | nil =>
    intro acc
    simp [addTagsOfValues, pure, Except.pure]
  | cons x rest ih =>
    intro acc
    have hx := tagOfPacker_wellShaped (h x (by simp))
    rw [addTagsOfValues]
    simp only [Bind.bind, Except.bind, hx]
    cases hsv : specTagsOfValue x with
    | none =>
      rw [ih (fun y hy => h y (List.mem_cons_of_mem _ hy)) acc]
      simp [List.filterMap_cons, hsv]
    | some tag =>
      rw [ih (fun y hy => h y (List.mem_cons_of_mem _ hy)) (insert tag acc)]
      simp [List.filterMap_cons, hsv, List.toFinset_cons,
        Finset.insert_union, Finset.union_insert]

theorem getTagsGo_wellShaped {ds : List JVal}
    (h : ∀ d ∈ ds, WellShapedTagInput d) :
    ∀ acc, getTagsGo ds acc = Except.ok (acc ∪ specTags ds) := by
  induction ds with
  | nil =>
    intro acc
    simp [getTagsGo, specTags, specTagsList, pure, Except.pure]
  | cons d rest ih =>
    intro acc
    obtain ⟨fs, rfl, hv⟩ := h d (by simp)
    have ih' := ih fun d hd => h d (List.mem_cons_of_mem _ hd)
    rw [getTagsGo]
    cases hvv : jlookup fs kValues with
    | none =>
      simp only [pyContains, hvv, Option.isSome_none, Bind.bind, Except.bind,
        Bool.false_eq_true, if_false]
      rw [ih' acc]
      simp [specTags, specTagsList, specTagsOfFinding, hvv]
    | some v =>
      obtain ⟨vs, rfl, hxs⟩ := hv v hvv
      simp only [pyContains, hvv, Option.isSome_some, Bind.bind, Except.bind,
        if_true, pyGetItem, pyIter]
      rw [addTagsOfValues_wellShaped hxs acc]
      dsimp only
      rw [ih' (acc ∪ (vs.filterMap specTagsOfValue).toFinset)]
      simp [specTags, specTagsList, specTagsOfFinding, hvv,
        List.toFinset_append, Finset.union_assoc]

theorem get_tags_wellShaped {ds : List JVal}
    (h : ∀ d ∈ ds, WellShapedTagInput d) :
    get_tags_from_die ds = Except.ok (specTags ds) := by
  unfold get_tags_from_die
  rw [getTagsGo_wellShaped h ∅]
  simp

/-- C2: for well-shaped findings `get_tags_from_die` returns exactly the
set of tags derived per value — none when the normalized type or name is
`"unknown"`, the bare normalized name for type `"malware"`, and
`"type:name"` otherwise — as a `Finset` (set semantics, no order);
concretely, Malware/Emotet yields `{"emotet"}`, Packer/UPX yields
`{"packer:upx"}`, either field `"Unknown"` yields nothing, and a repeated
value is deduplicated. -/
theorem claim_C2_tag_derivation :
    (∀ ds : List JVal, (∀ d ∈ ds, WellShapedTagInput d) →
      get_tags_from_die ds = Except.ok (specTags ds)) ∧
    get_tags_from_die [JVal.obj [(cs "values", JVal.arr
        [JVal.obj [(cs "type", JVal.str (cs "Malware")),
                   (cs "name", JVal.str (cs "Emotet"))]])]]
      = Except.ok {cs "emotet"} ∧
    get_tags_from_die [JVal.obj [(cs "values", JVal.arr
        [JVal.obj [(cs "type", JVal.str (cs "Packer")),
                   (cs "name", JVal.str (cs "UPX"))]])]]
      = Except.ok {cs "packer:upx"} ∧
    get_tags_from_die [JVal.obj [(cs "values", JVal.arr
        [JVal.obj [(cs "type", JVal.str (cs "Unknown")),
                   (cs "name", JVal.str (cs "X"))]])]]
      = Except.ok ∅ ∧
    get_tags_from_die [JVal.obj [(cs "values", JVal.arr
        [JVal.obj [(cs "type", JVal.str (cs "X")),
                   (cs "name", JVal.str (cs "Unknown"))]])]]
      = Except.ok ∅ ∧
    get_tags_from_die [JVal.obj [(cs "values", JVal.arr
        [JVal.obj [(cs "type", JVal.str (cs "Packer")),
                   (cs "name", JVal.str (cs "UPX"))],
         JVal.obj [(cs "type", JVal.str (cs "Packer")),
                   (cs "name", JVal.str (cs "UPX"))]])]]
      = Except.ok {cs "packer:upx"} :=
  ⟨fun _ h => get_tags_wellShaped h, rfl, rfl, rfl, rfl, rfl⟩

/-- C2 witness: the general rule applied at the concrete Malware/Emotet
finding. -/
theorem claim_C2_witness :
    get_tags_from_die [JVal.obj [(cs "values", JVal.arr
        [JVal.obj [(cs "type", JVal.str (cs "Malware")),
                   (cs "name", JVal.str (cs "Emotet"))]])]]
      = Except.ok (specTags [JVal.obj [(cs "values", JVal.arr
          [JVal.obj [(cs "type", JVal.str (cs "Malware")),
                     (cs "name", JVal.str (cs "Emotet"))]])]]) := by
  apply claim_C2_tag_derivation.1
  intro d hd
  have hdX := List.mem_singleton.mp hd
  subst hdX
  refine ⟨_, rfl, fun v hv => ?_⟩
  have hv' : some (JVal.arr [JVal.obj [(cs "type", JVal.str (cs "Malware")),
      (cs "name", JVal.str (cs "Emotet"))]]) = some v := hv
  refine ⟨_, (Option.some.inj hv').symm, fun x hx => ?_⟩
  have hxX := List.mem_singleton.mp hx
  subst hxX
  refine ⟨_, rfl, fun tv htv => ?_, fun nv hnv => ?_⟩
  · have htv' : some (JVal.str (cs "Malware")) = some tv := htv
    exact ⟨_, (Option.some.inj htv').symm⟩
  · have hnv' : some (JVal.str (cs "Emotet")) = some nv := hnv
    exact ⟨_, (Option.some.inj hnv').symm⟩

end FileDetection
